import Mathlib

/-!
# Verification of the lane-level A* route planner (`astarv5_utm.py`)

This file gives a shallow embedding of the pure computational core of the
planner: the lane data model, the geodesic-parameterised cost model
(`heuristic`, `lane_length`), nearest-lane lookup, the lane-level A* search
with its Python-`heapq` open list (including the in-place mutation of the
`f` field of nodes that are already inside the heap), goal-lane truncation
(`truncate_goal_lane`), loop removal (`remove_cycles_from_path`) and the
path-assembly pipeline of `try_compute_path`.

The external geodesic-distance library call is modelled by an explicit
function parameter `geo : Point α → Point α → α` applied to exactly the
raw argument pairs the source passes; every swap `(p[1], p[0])` performed
by a call site is modelled explicitly, so coordinate-ordering questions
are visible in the embedding.  The numeric carrier `α` is an arbitrary
linear ordered commutative ring for the division-free parts and a linear
ordered field where the source divides (the arc-length fractions of
`truncate_goal_lane`); instantiating `α := ℚ` recovers exact real-valued
arithmetic, while counterexample instances whose data are integral can be
evaluated at `α := ℤ`.
-/

set_option linter.unusedVariables false

namespace AStarPlanner

/-- A geographic point as the source stores it: a `(longitude, latitude)`
pair (the source keeps points as 2-element tuples/lists). -/
abbrev Point (α : Type) := α × α

/-- The external geodesic distance function `geodesic(p, q).meters`,
applied to the raw pairs that the call site passes (no implicit swapping:
each call site's own reordering is modelled at the call site). -/
abbrev Geo (α : Type) := Point α → Point α → α

/-- The explicit `(x, y) ↦ (y, x)` reordering written as
`(pt[1], pt[0])` at the `lane_length`, `find_closest_lane_node` and
`truncate_goal_lane` call sites of the source. -/
def swapPt {α : Type} (p : Point α) : Point α := (p.2, p.1)

/-- Constructor `LaneNode.__init__`: identifier, `start`/`end` `(lon, lat)` tuples and
the centerline (list of `[lon, lat]` pairs).  The mutable search fields
`g`, `h`, `f`, `parent` live in the per-search `AState` below, matching
the reset that `reset_lane_states` performs before every search. -/
structure LaneNode (α : Type) where
  path_id : ℕ
  start : Point α
  stop : Point α
  center : List (Point α)
deriving DecidableEq, Repr

/-- First-match lookup in an association list (Python `dict` access). -/
def assocFind {κ : Type _} {β : Type _} [DecidableEq κ] :
    List (κ × β) → κ → Option β
  | [], _ => none
  | (k, v) :: rest, k' => if k = k' then some v else assocFind rest k'

/-- Replace the value at a key, or append the binding if the key is absent
(Python `dict.__setitem__` / attribute assignment). -/
def assocSet {κ : Type _} {β : Type _} [DecidableEq κ] :
    List (κ × β) → κ → β → List (κ × β)
  | [], k, v => [(k, v)]
  | (k0, v0) :: rest, k, v =>
      if k0 = k then (k0, v) :: rest else (k0, v0) :: assocSet rest k v

/-- The lane mapping `lanes` built by `load_lane_graph`: identifier to
`LaneNode`, in insertion order (Python dict iteration order). -/
abbrev Lanes (α : Type) := List (ℕ × LaneNode α)

/-- The adjacency mapping `graph`: identifier to ordered successor list. -/
abbrev Graph := List (ℕ × List ℕ)

/-- Lookup `graph.get(path_id, [])`. -/
def graphGet (g : Graph) (i : ℕ) : List ℕ := (assocFind g i).getD []

section RingDefs

variable {α : Type} [LinearOrderedCommRing α]

/-- Function `heuristic(a, b)`: the source passes the raw `(lon, lat)` tuples
`a.end` and `b.start` directly to `geodesic`, with no reordering. -/
def heuristic (geo : Geo α) (a b : LaneNode α) : α := geo a.stop b.start

/-- The loop of `lane_length`: sum of `geodesic((p[1],p[0]), (q[1],q[0]))`
over consecutive centerline points. -/
def pairSum (geo : Geo α) : List (Point α) → α
  | p :: q :: rest => geo (swapPt p) (swapPt q) + pairSum geo (q :: rest)
  | _ => 0

/-- Function `lane_length(lane)`: centre-line length; falls back to the
(lat, lon)-swapped start–end distance when the centerline has fewer than
2 points. -/
def lane_length (geo : Geo α) (lane : LaneNode α) : α :=
  if lane.center.length < 2 then geo (swapPt lane.start) (swapPt lane.stop)
  else pairSum geo lane.center

/-- Comparison `x < y` where `y` may be `float('inf')` (`none`); `x` is finite. -/
def ltInf (x : α) : Option α → Bool
  | none => true
  | some y => decide (x < y)

/-- Inner loop of `find_closest_lane_node`: scan one lane's centerline,
updating the running minimum distance and closest lane. -/
def fclPts (geo : Geo α) (gps : Point α) (lane : LaneNode α) :
    List (Point α) → Option (LaneNode α) → Option α →
      Option (LaneNode α) × Option α
  | [], best, m => (best, m)
  | pt :: rest, best, m =>
      let d := geo (swapPt gps) (swapPt pt)
      if ltInf d m then fclPts geo gps lane rest (some lane) (some d)
      else fclPts geo gps lane rest best m

/-- Outer loop of `find_closest_lane_node` over `lanes.values()`. -/
def fclLanes (geo : Geo α) (gps : Point α) :
    List (ℕ × LaneNode α) → Option (LaneNode α) → Option α →
      Option (LaneNode α)
  | [], best, _ => best
  | (_, lane) :: rest, best, m =>
      let bm := fclPts geo gps lane lane.center best m
      fclLanes geo gps rest bm.1 bm.2

/-- Function `find_closest_lane_node(lanes, gps_point)`: the lane owning the
centerline point at globally minimal (strictly smaller) distance from the
query point; `None` when no centerline point exists at all. -/
def find_closest_lane_node (geo : Geo α) (lanes : Lanes α)
    (gps : Point α) : Option (LaneNode α) :=
  fclLanes geo gps lanes none none

/-!
## The Python `heapq` open list

`a_star_lane_level` stores `LaneNode` objects in a `heapq` list ordered by
`__lt__` on the `f` attribute.  Because the same object can sit in the
list while its `f` attribute is reassigned, comparisons must read the
*current* `f` value: the heap is modelled as a list of identifiers and
every comparison consults the key function `k` at operation time, exactly
as CPython's `heapq` calls `__lt__` lazily during `heappush`/`heappop`.
-/

/-- The `while pos > startpos` loop of `heapq._siftdown`, recursing on an
iteration counter: each pass strictly decreases `pos`, so starting the
counter at the initial `pos` makes the counter-exhausted arm unreachable
(the counter exists only to make the recursion structural). -/
def siftdownGo (k : ℕ → α) (startpos newitem : ℕ) :
    ℕ → List ℕ → ℕ → List ℕ
  | 0, heap, pos => heap.set pos newitem
  | fuel + 1, heap, pos =>
      if startpos < pos then
        let parentpos := (pos - 1) / 2
        let parent := heap.getD parentpos 0
        if k newitem < k parent then
          siftdownGo k startpos newitem fuel (heap.set pos parent) parentpos
        else heap.set pos newitem
      else heap.set pos newitem

/-- Model of `heapq._siftdown(heap, startpos, pos)` where `newitem = heap[pos]`
was read at entry. -/
def siftdownLoop (k : ℕ → α) (heap : List ℕ) (startpos pos newitem : ℕ) :
    List ℕ :=
  siftdownGo k startpos newitem pos heap pos

/-- The descent loop of `heapq._siftup`, recursing on an iteration
counter: each pass moves `pos` to a child (`pos` at least doubles plus
one) while `pos` stays below the fixed list length, so starting the
counter at the list length makes the counter-exhausted arm unreachable. -/
def siftupGo (k : ℕ → α) (startpos newitem : ℕ) :
    ℕ → List ℕ → ℕ → List ℕ
  | 0, heap, pos => siftdownLoop k (heap.set pos newitem) startpos pos newitem
  | fuel + 1, heap, pos =>
      if 2 * pos + 1 < heap.length then
        let childpos :=
          if 2 * pos + 2 < heap.length ∧
              ¬ k (heap.getD (2 * pos + 1) 0) < k (heap.getD (2 * pos + 2) 0)
          then 2 * pos + 2 else 2 * pos + 1
        siftupGo k startpos newitem fuel (heap.set pos (heap.getD childpos 0))
          childpos
      else siftdownLoop k (heap.set pos newitem) startpos pos newitem

/-- Model of `heapq._siftup(heap, pos)` (with its trailing `_siftdown` call):
moves the smaller child up until reaching a leaf, then sifts `newitem`
back down from the leaf position. -/
def siftupLoop (k : ℕ → α) (heap : List ℕ) (startpos pos newitem : ℕ) :
    List ℕ :=
  siftupGo k startpos newitem heap.length heap pos

/-- Model of `heapq.heappush(heap, item)`. -/
def heappushF (k : ℕ → α) (heap : List ℕ) (item : ℕ) : List ℕ :=
  siftdownLoop k (heap ++ [item]) 0 heap.length item

/-- Model of `heapq.heappop(heap)`: returns the popped element and the remaining
heap, or `none` on an empty list (the source only pops while the open
list is non-empty). -/
def heappopF (k : ℕ → α) : List ℕ → Option (ℕ × List ℕ)
  | [] => none
  | x :: xs =>
      let lastelt := (x :: xs).getLastD 0
      let rest := (x :: xs).dropLast
      match rest with
      | [] => some (lastelt, [])
      | r :: rs => some (r, siftupLoop k ((r :: rs).set 0 lastelt) 0 0 lastelt)

/-!
## The A* search state and main loop

The mutable per-lane attributes `g`, `h`, `f`, `parent` are collected in
`AState`, keyed by `path_id`; a key absent from `gMap` stands for the
initial `float('inf')`, absent `hMap`/`fMap` entries stand for the reset
values `0`, and an absent `parentMap` entry stands for `None` — exactly
the state `reset_lane_states` establishes before each search.
-/

end RingDefs

structure AState (α : Type) where
  openList : List ℕ
  closed : List ℕ
  gMap : List (ℕ × α)
  hMap : List (ℕ × α)
  fMap : List (ℕ × α)
  parentMap : List (ℕ × ℕ)
deriving Repr, DecidableEq

section RingDefs2

variable {α : Type} [LinearOrderedCommRing α]

/-- The `g` attribute (`none` = `float('inf')`). -/
def gOf (s : AState α) (i : ℕ) : Option α := assocFind s.gMap i

/-- The `h` attribute. -/
def hOf (s : AState α) (i : ℕ) : α := (assocFind s.hMap i).getD 0

/-- The `f` attribute, the key every heap comparison reads. -/
def fOf (s : AState α) (i : ℕ) : α := (assocFind s.fMap i).getD 0

/-- The `parent` attribute. -/
def parentOf (s : AState α) (i : ℕ) : Option ℕ := assocFind s.parentMap i

/-- The `for neighbor_id in graph.get(...)` loop body of
`a_star_lane_level`: skip closed neighbours, skip identifiers absent from
the lane mapping (logged warning in the source), otherwise relax with
`tentative_g = current.g + lane_length(neighbor)` and push the neighbour
onto the open list after updating its `g`/`h`/`f`/`parent`. -/
def relaxList (geo : Geo α) (lanes : Lanes α) (goalLane : LaneNode α)
    (currentId : ℕ) : List ℕ → AState α → AState α
  | [], s => s
  | nb :: rest, s =>
      if nb ∈ s.closed then relaxList geo lanes goalLane currentId rest s
      else
        match assocFind lanes nb with
        | none => relaxList geo lanes goalLane currentId rest s
        | some lane =>
            match gOf s currentId with
            | none => relaxList geo lanes goalLane currentId rest s
            | some gc =>
                let tentative := gc + lane_length geo lane
                if ltInf tentative (gOf s nb) then
                  let hn := heuristic geo lane goalLane
                  let s' : AState α :=
                    { s with
                      gMap := assocSet s.gMap nb tentative
                      hMap := assocSet s.hMap nb hn
                      fMap := assocSet s.fMap nb (tentative + hn)
                      parentMap := assocSet s.parentMap nb currentId }
                  relaxList geo lanes goalLane currentId rest
                    { s' with openList := heappushF (fOf s') s'.openList nb }
                else relaxList geo lanes goalLane currentId rest s

/-- The `while current:` reconstruction loop (follow `parent` links),
with fuel: the source walks objects, the model walks identifiers. -/
def chainAux (pm : List (ℕ × ℕ)) : ℕ → ℕ → List ℕ
  | 0, i => [i]
  | fuel + 1, i =>
      i :: (match assocFind pm i with
            | none => []
            | some p => chainAux pm fuel p)

/-- Outcome of one iteration of the `while open_list:` loop. -/
inductive IterResult (α : Type) where
  | next (s : AState α)
  | done (r : Option (List ℕ))
deriving Repr, DecidableEq

/-- One iteration of the A* main loop: pop the heap, add the popped
identifier to the closed set, return the reconstructed path if it is the
goal, otherwise expand its successors. -/
def aStarIter (geo : Geo α) (graph : Graph) (lanes : Lanes α)
    (goalLane : LaneNode α) (s : AState α) : IterResult α :=
  match heappopF (fOf s) s.openList with
  | none => .done none
  | some (current, heap') =>
      let s' := { s with openList := heap', closed := current :: s.closed }
      if current = goalLane.path_id then
        .done (some ((chainAux s'.parentMap (lanes.length + 1) current).reverse))
      else
        .next (relaxList geo lanes goalLane current (graphGet graph current) s')

/-- The `while open_list:` loop with fuel (`none` = fuel exhausted). -/
def aStarLoop (geo : Geo α) (graph : Graph) (lanes : Lanes α)
    (goalLane : LaneNode α) : ℕ → AState α → Option (Option (List ℕ))
  | 0, _ => none
  | fuel + 1, s =>
      match aStarIter geo graph lanes goalLane s with
      | .done r => some r
      | .next s' => aStarLoop geo graph lanes goalLane fuel s'

/-- The state after `start_lane.g = 0`, `start_lane.f = heuristic(...)`
and `heappush(open_list, start_lane)`. -/
def initState (geo : Geo α) (startLane goalLane : LaneNode α) : AState α :=
  let s0 : AState α :=
    { openList := [], closed := [],
      gMap := [(startLane.path_id, 0)],
      hMap := [],
      fMap := [(startLane.path_id, heuristic geo startLane goalLane)],
      parentMap := [] }
  { s0 with openList := heappushF (fOf s0) s0.openList startLane.path_id }

/-- Function `a_star_lane_level(graph, lanes, start_lane, goal_lane)` run on a
fresh search state; the result is the list of `path_id`s of the returned
lane path (`some none` = Python `None`, outer `none` = fuel exhausted). -/
def a_star_lane_level (geo : Geo α) (graph : Graph) (lanes : Lanes α)
    (startLane goalLane : LaneNode α) (fuel : ℕ) :
    Option (Option (List ℕ)) :=
  aStarLoop geo graph lanes goalLane fuel (initState geo startLane goalLane)

/-- The state after `n` completed iterations of the main loop (`none`
if the loop returned within the first `n` iterations). -/
def aStarIterN (geo : Geo α) (graph : Graph) (lanes : Lanes α)
    (goalLane : LaneNode α) : ℕ → AState α → Option (AState α)
  | 0, s => some s
  | n + 1, s =>
      match aStarIter geo graph lanes goalLane s with
      | .done _ => none
      | .next s' => aStarIterN geo graph lanes goalLane n s'

end RingDefs2

/-!
## `remove_cycles_from_path`
-/

section CycleDefs

variable {α : Type} [DecidableEq α]

/-- One step of the `remove_cycles_from_path` loop: `seen` maps a
coordinate value to `len(new_path)` at the moment it was first appended;
on encountering a value already in `seen`, the output is cut to its first
`idx + 1` elements and the point is dropped (the `seen` entry for a
discarded point is *not* removed). -/
def rcStep : List (Point α × ℕ) × List (Point α) → Point α →
    List (Point α × ℕ) × List (Point α) :=
  fun sp pt =>
    match assocFind sp.1 pt with
    | some idx => (sp.1, sp.2.take (idx + 1))
    | none => ((pt, sp.2.length) :: sp.1, sp.2 ++ [pt])

/-- The `(seen, new_path)` state after running the loop over `path`. -/
def rcRun (path : List (Point α)) : List (Point α × ℕ) × List (Point α) :=
  path.foldl rcStep ([], [])

/-- Function `remove_cycles_from_path(path)`. -/
def remove_cycles_from_path (path : List (Point α)) : List (Point α) :=
  (rcRun path).2

/-- Index of the first occurrence of `p` (length of the list when `p`
does not occur), used to state the first-occurrence claims about
`remove_cycles_from_path`. -/
def idxOfP : List (Point α) → Point α → ℕ
  | [], _ => 0
  | x :: xs, p => if x = p then 0 else idxOfP xs p + 1

/-- The data invariant of the `remove_cycles_from_path` loop: the output
carries no duplicate coordinate value, and the recorded index of any
value still present in the output is its (first and only) position
there. -/
def RCInv (seen : List (Point α × ℕ)) (np : List (Point α)) : Prop :=
  np.Nodup ∧ ∀ x ∈ np, assocFind seen x = some (idxOfP np x)

/-- Modelled from the spec: one step of §4.7's cycle remover, whose
mapping always means "first index in the output-so-far", so a coordinate
value that is no longer present in the output is treated as unseen. -/
def rcSpecStep (np : List (Point α)) (pt : Point α) : List (Point α) :=
  if pt ∈ np then np.take (idxOfP np pt + 1) else np ++ [pt]

/-- Modelled from the spec: §4.7's cycle remover with a mapping that
faithfully tracks first occurrences in the output-so-far. -/
def remove_cycles_spec (l : List (Point α)) : List (Point α) :=
  l.foldl rcSpecStep []

end CycleDefs

/-!
## `truncate_goal_lane` and the `try_compute_path` pipeline

The arc-length fractions `cumulative[i] / total_length` divide, so these
definitions live over a linear ordered field.
-/

section FieldDefs

variable {α : Type} [LinearOrderedField α]

/-- The cumulative-distance loop: given the previous point and the running
total, produce `cumulative[1:]`. -/
def cumulAux (geo : Geo α) : Point α → α → List (Point α) → List α
  | _, _, [] => []
  | prev, acc, p :: rest =>
      let acc' := acc + geo (swapPt prev) (swapPt p)
      acc' :: cumulAux geo p acc' rest

/-- The full `cumulative` list of `truncate_goal_lane` (starts with `0.0`). -/
def cumulative (geo : Geo α) : List (Point α) → List α
  | [] => []
  | p :: rest => 0 :: cumulAux geo p 0 rest

/-- The candidate-selection scan: first index `i` with
`cumulative[i]/total ≥ min_fraction` and distance-to-goal `< threshold`
(the `break` in the source). -/
def candAux (geo : Geo α) (goal : Point α) (mf th total : α) :
    ℕ → List α → List (Point α) → Option ℕ
  | _, [], _ => none
  | _, _, [] => none
  | i, c :: cs, p :: ps =>
      if mf ≤ c / total ∧ geo (swapPt goal) (swapPt p) < th then some i
      else candAux geo goal mf th total (i + 1) cs ps

/-- Function `truncate_goal_lane(goal_lane_center, goal_gps, min_fraction, threshold)`. -/
def truncate_goal_lane (geo : Geo α) (center : List (Point α))
    (goal : Point α) (mf th : α) : List (Point α) :=
  if center.length = 0 then [goal]
  else
    let cum := cumulative geo center
    let total := (cum.getLast?).getD 0
    if total = 0 then [goal]
    else
      let cidx :=
        (candAux geo goal mf th total 0 cum center).getD (center.length - 1)
      let truncated := center.take (cidx + 1)
      truncated.set (truncated.length - 1) goal

/-- The selection condition of `truncate_goal_lane` at index `i`, stated
declaratively: the arc-length fraction reaches `min_fraction` and the
distance from the goal point is below `threshold`. -/
def TruncPred (geo : Geo α) (center : List (Point α)) (goal : Point α)
    (mf th : α) (i : ℕ) : Prop :=
  mf ≤ (cumulative geo center).getD i 0 /
      (((cumulative geo center).getLast?).getD 0) ∧
    geo (swapPt goal) (swapPt (center.getD i goal)) < th

/-- Loop `for lane in lane_path[:-1]: composite_centerline.extend(lane.center)`. -/
def compositeCenter (lanes : Lanes α) (ids : List ℕ) : List (Point α) :=
  ids.dropLast.foldl
    (fun acc i => acc ++ ((assocFind lanes i).map LaneNode.center).getD []) []

/-- The `final_centerline` of `try_compute_path` *before*
`remove_cycles_from_path` is applied: locate start and goal lanes, run
the search, concatenate the centerlines of all but the last path lane and
append the truncated goal-lane segment with the hard-coded parameters
`min_fraction = 0.1`, `threshold = 5.0`.  `none` models the branches
where nothing is published (lookup failure, no path, fuel exhausted). -/
def assembled_centerline (geo : Geo α) (lanes : Lanes α) (graph : Graph)
    (start_gps goal_gps : Point α) (fuel : ℕ) : Option (List (Point α)) :=
  match find_closest_lane_node geo lanes start_gps,
        find_closest_lane_node geo lanes goal_gps with
  | some startLane, some goalLane =>
      match a_star_lane_level geo graph lanes startLane goalLane fuel with
      | some (some lanePath) =>
          if lanePath.isEmpty then none
          else
            some (compositeCenter lanes lanePath ++
              truncate_goal_lane geo goalLane.center goal_gps (1 / 10) 5)
      | _ => none
  | _, _ => none

/-- The geographic path published by `try_compute_path` (`none` = nothing
published for this computation). -/
def try_compute_path (geo : Geo α) (lanes : Lanes α) (graph : Graph)
    (start_gps goal_gps : Point α) (fuel : ℕ) : Option (List (Point α)) :=
  (assembled_centerline geo lanes graph start_gps goal_gps fuel).map
    remove_cycles_from_path

end FieldDefs

/-!
## Comparison predicates for the search claims
-/

section SeqDefs

variable {α : Type} [LinearOrderedCommRing α]

/-- Total centerline length of a lane-identifier sequence (identifiers
absent from the mapping contribute `0`; the sequences compared below are
all fully mapped). -/
def seqLen (geo : Geo α) (lanes : Lanes α) : List ℕ → α
  | [] => 0
  | i :: rest =>
      ((assocFind lanes i).map (lane_length geo)).getD 0 + seqLen geo lanes rest

/-- Consecutive elements of the identifier sequence are graph
successors. -/
def SuccChain (graph : Graph) : List ℕ → Prop
  | a :: b :: rest => b ∈ graphGet graph a ∧ SuccChain graph (b :: rest)
  | _ => True

instance instDecSuccChain (graph : Graph) :
    ∀ ids : List ℕ, Decidable (SuccChain graph ids)
  | [] => inferInstanceAs (Decidable True)
  | [_] => inferInstanceAs (Decidable True)
  | _ :: b :: rest =>
      have := instDecSuccChain graph (b :: rest)
      inferInstanceAs (Decidable (_ ∧ _))

/-- Predicate: `ids` is a successor-connected lane sequence from `s` to `g` whose
identifiers are all present in the lane mapping. -/
def IsLaneSeq (graph : Graph) (lanes : Lanes α) (s g : ℕ)
    (ids : List ℕ) : Prop :=
  ids.head? = some s ∧ ids.getLast? = some g ∧
    (∀ i ∈ ids, (assocFind lanes i).isSome) ∧ SuccChain graph ids

instance (graph : Graph) (lanes : Lanes α) (s g : ℕ) (ids : List ℕ) :
    Decidable (IsLaneSeq graph lanes s g ids) :=
  inferInstanceAs (Decidable (ids.head? = some s ∧ ids.getLast? = some g ∧
    (∀ i ∈ ids, (assocFind lanes i).isSome) ∧ SuccChain graph ids))

/-- The heuristic toward `goalLane` is consistent for the lane-by-lane
cost model: along every successor edge `a → b` of the mapped graph,
`h(a) ≤ lane_length(b) + h(b)`, and the goal lane's self-estimate is
zero. -/
def ConsistentHeur (geo : Geo α) (graph : Graph) (lanes : Lanes α)
    (goalLane : LaneNode α) : Prop :=
  heuristic geo goalLane goalLane = 0 ∧
    ∀ pa ∈ lanes, ∀ pb ∈ lanes, pb.1 ∈ graphGet graph pa.1 →
      heuristic geo pa.2 goalLane ≤
        lane_length geo pb.2 + heuristic geo pb.2 goalLane

instance (geo : Geo α) (graph : Graph) (lanes : Lanes α)
    (goalLane : LaneNode α) :
    Decidable (ConsistentHeur geo graph lanes goalLane) :=
  inferInstanceAs (Decidable (heuristic geo goalLane goalLane = 0 ∧
    ∀ pa ∈ lanes, ∀ pb ∈ lanes, pb.1 ∈ graphGet graph pa.1 →
      heuristic geo pa.2 goalLane ≤
        lane_length geo pb.2 + heuristic geo pb.2 goalLane))

/-- The heuristic toward `goalLane` never overestimates the total length
of the lanes still to be traversed (the cost model charges each lane
sequence `i :: rest` the lengths of the lanes in `rest`). -/
def AdmissibleHeur (geo : Geo α) (graph : Graph) (lanes : Lanes α)
    (goalLane : LaneNode α) : Prop :=
  ∀ i li ids, assocFind lanes i = some li →
    IsLaneSeq graph lanes i goalLane.path_id ids →
    heuristic geo li goalLane ≤ seqLen geo lanes ids.tail

/-- The adjacency mapping with dangling successor references (identifiers
absent from the lane mapping) removed from every successor list. -/
def graphFilterDangling (lanes : Lanes α) (g : Graph) : Graph :=
  g.map fun e => (e.1, e.2.filter fun i => (assocFind lanes i).isSome)

/-- The relaxation invariant of the search state: whenever a lane's
`parent` pointer is set, the parent is closed (so its `g` is frozen) and
the lane's `g` equals the parent's `g` plus the lane's *own* centerline
length — the `tentative_g = current.g + lane_length(neighbor)` rule. -/
def GInv (geo : Geo α) (lanes : Lanes α) (s : AState α) : Prop :=
  ∀ id p, parentOf s id = some p →
    p ∈ s.closed ∧ ∃ lane, assocFind lanes id = some lane ∧
      ∃ gp gid, gOf s p = some gp ∧ gOf s id = some gid ∧
        gid = gp + lane_length geo lane

end SeqDefs

/-!
## Concrete instances used by witnesses and counterexamples
-/

/-- Taxicab plane distance: a concrete, symmetric, non-negative instance
of the abstract geodesic used to evaluate the embedding on witnesses and
counterexamples. -/
def taxiGeo {α : Type} [LinearOrderedCommRing α] : Geo α :=
  fun p q => |p.1 - q.1| + |p.2 - q.2|

/-- A concrete instance whose value changes when both arguments are
swapped, distinguishing the two coordinate orderings. -/
def skewGeo {α : Type} [LinearOrderedCommRing α] : Geo α :=
  fun p q => |p.1 - q.1| + 2 * |p.2 - q.2|

/-- A lane whose centre-line length under `taxiGeo` is `len` and whose
heuristic distance to any lane starting at the origin is `h`. -/
def mkLane (i : ℕ) (len h : ℤ) : LaneNode ℤ :=
  { path_id := i, start := (0, 0), stop := (h, 0), center := [(0, 0), (len, 0)] }

/-- Seven-lane instance exhibiting the broken-heap behaviour: lane 5 is
relaxed while already inside the open list, which silently rewrites the
key of its stale heap entry. -/
def exLanes : Lanes ℤ :=
  [(1, mkLane 1 1 0), (2, mkLane 2 5 0), (3, mkLane 3 3 2), (4, mkLane 4 8 0),
   (5, mkLane 5 1 1), (6, mkLane 6 1 0), (7, mkLane 7 10 0)]

/-- Adjacency for `exLanes`: `1→[2,3,4]`, `2→[6,5]`, `3→[5]`, `5→[6]`,
`6→[7]`. -/
def exGraph : Graph :=
  [(1, [2, 3, 4]), (2, [6, 5]), (3, [5]), (5, [6]), (6, [7])]

/-- Start lane of the instance. -/
def exStart : LaneNode ℤ := mkLane 1 1 0

/-- Goal lane of the instance. -/
def exGoal : LaneNode ℤ := mkLane 7 10 0

/-- The search state of the `exLanes` instance after three iterations of
the main loop: lane 3 popped and re-relaxed lane 5 — whose entry pushed
by lane 2 was still inside the heap — rewriting the stale entry's key
from 7 to 5 in place, so the heap `[6, 5, 4, 5]` no longer satisfies the
heap property (`f 6 = 6 > 5 = f 5` at position 0). -/
def exS3 : AState ℤ :=
  { openList := [6, 5, 4, 5],
    closed := [3, 2, 1],
    gMap := [(1, 0), (2, 5), (3, 3), (4, 8), (6, 6), (5, 4)],
    hMap := [(2, 0), (3, 2), (4, 0), (6, 0), (5, 1)],
    fMap := [(1, 0), (2, 5), (3, 5), (4, 8), (6, 6), (5, 5)],
    parentMap := [(2, 1), (3, 1), (4, 1), (6, 2), (5, 3)] }

/-- Lane for the coordinate-order mismatch example: its `end` point. -/
def cLaneA : LaneNode ℤ :=
  { path_id := 11, start := (0, 0), stop := (1, 0), center := [] }

/-- Lane for the coordinate-order mismatch example: its `start` point. -/
def cLaneB : LaneNode ℤ :=
  { path_id := 12, start := (0, 0), stop := (0, 0), center := [] }

/-- Degenerate lane spanning the same pair of geographic points that
`heuristic cLaneA cLaneB` measures, so `lane_length` exhibits the
(lat, lon)-swapped convention on that very pair. -/
def cLaneDeg : LaneNode ℤ :=
  { path_id := 13, start := (1, 0), stop := (0, 0), center := [] }

/-- Goal-truncation pipeline example: the lane `tLaneA` loops through the
point that happens to be the requested goal coordinate. -/
def tLaneA : LaneNode ℚ :=
  { path_id := 1, start := (0, 0), stop := (0, 0),
    center := [(0, 0), (0, 10), (0, 0)] }

/-- Goal-truncation pipeline example: the goal lane, whose first
centerline point is the requested goal coordinate. -/
def tLaneG : LaneNode ℚ :=
  { path_id := 2, start := (0, 10), stop := (0, 12),
    center := [(0, 10), (0, 11), (0, 12)] }

/-- Lane mapping of the pipeline example (the goal lane is iterated
first, so `find_closest_lane_node` resolves the goal onto it). -/
def tLanes : Lanes ℚ := [(2, tLaneG), (1, tLaneA)]

/-- Adjacency of the pipeline example. -/
def tGraph : Graph := [(1, [2])]

/-- Happy-path pipeline instance: first lane. -/
def wLaneA : LaneNode ℚ :=
  { path_id := 1, start := (0, 0), stop := (1, 0),
    center := [(0, 0), (1, 0)] }

/-- Happy-path pipeline instance: goal lane; the requested goal point
coincides with its last centerline point and occurs nowhere else. -/
def wLaneG : LaneNode ℚ :=
  { path_id := 2, start := (2, 0), stop := (3, 0),
    center := [(2, 0), (3, 0)] }

/-- Lane mapping of the happy-path pipeline instance. -/
def wLanes : Lanes ℚ := [(1, wLaneA), (2, wLaneG)]

/-- Adjacency of the happy-path pipeline instance. -/
def wGraph : Graph := [(1, [2])]

/-!
# Theorems
-/

theorem assocFind_mem {κ β : Type _} [DecidableEq κ] {l : List (κ × β)}
    {k : κ} {v : β} (h : assocFind l k = some v) : (k, v) ∈ l := by
  induction l with
  | nil => simp [assocFind] at h
  | cons p rest ih =>
    rw [assocFind] at h
    split at h
    · rename_i hk
      obtain rfl := Option.some.inj h
      simp [← hk]
    · simp [ih h]

/-- C1: The claim that `heuristic` measures its distance under the
same (latitude, longitude) argument ordering as every other geodesic
call site is false: `heuristic` hands the raw `(lon, lat)` tuples
`a.end`, `b.start` to the distance function, while `lane_length` (like
`find_closest_lane_node` and `truncate_goal_lane`) swaps both pairs to
(latitude, longitude) first.  On a distance function that weights the
two coordinates differently, the very same pair of geographic points
measures 1 through `heuristic` but 2 through the lane-length convention. -/
theorem heuristic_coordinate_order_mismatch :
    heuristic skewGeo cLaneA cLaneB = 1 ∧
    skewGeo (swapPt cLaneA.stop) (swapPt cLaneB.start) = 2 ∧
    lane_length skewGeo cLaneDeg = 2 ∧
    heuristic skewGeo cLaneA cLaneB ≠
      skewGeo (swapPt cLaneA.stop) (swapPt cLaneB.start) := by
  refine ⟨by decide, by decide, by decide, by decide⟩

/-- C6: After three loop iterations on the `exLanes` instance the
open list is `[6, 5, 4, 5]` — lane 5's `f` was rewritten in place to `5`
while its stale entry sat inside the heap, so the heap property is broken
— and the fourth pop returns lane 6 with `f = 6` even though lane 5 with
the strictly smaller `f = 5` is currently in the open list. -/
theorem a_star_pop_not_minimal_f :
    aStarIterN taxiGeo exGraph exLanes exGoal 3
        (initState taxiGeo exStart exGoal) = some exS3 ∧
    (heappopF (fOf exS3) exS3.openList).map Prod.fst = some 6 ∧
    (5 : ℕ) ∈ exS3.openList ∧
    fOf exS3 5 < fOf exS3 6 := by
  refine ⟨by decide, by decide, by decide, by decide⟩

/-- C3 counterexample: Re-truncating the truncated goal lane with
identical parameters shortens it further: forcing the final point to the
goal changes the arc-length fractions, so an index that failed the
`min_fraction` test in the first pass passes it in the second. -/
theorem truncate_goal_lane_not_idempotent :
    truncate_goal_lane (taxiGeo : Geo ℚ)
        (truncate_goal_lane taxiGeo [(0, 0), (1/10, 0), (100, 0)]
          (1/5, 0) (1/2) 1) (1/5, 0) (1/2) 1 ≠
      truncate_goal_lane taxiGeo [(0, 0), (1/10, 0), (100, 0)]
        (1/5, 0) (1/2) 1 := by
  have h1 : truncate_goal_lane (taxiGeo : Geo ℚ)
      [(0, 0), (1/10, 0), (100, 0)] (1/5, 0) (1/2) 1 =
      [(0, 0), (1/10, 0), (1/5, 0)] := by
    norm_num [truncate_goal_lane, cumulative, cumulAux, candAux, taxiGeo,
      swapPt, List.getLast?, abs_of_nonneg, abs_of_nonpos, inf_eq_min,
      Nat.min_def]
  have h2 : truncate_goal_lane (taxiGeo : Geo ℚ)
      [(0, 0), (1/10, 0), (1/5, 0)] (1/5, 0) (1/2) 1 =
      [(0, 0), (1/5, 0)] := by
    norm_num [truncate_goal_lane, cumulative, cumulAux, candAux, taxiGeo,
      swapPt, List.getLast?, abs_of_nonneg, abs_of_nonpos, inf_eq_min,
      Nat.min_def]
  rw [h1, h2]
  simp

/-- C4 counterexample: On `[a, b, a, b]` the code truncates at the
*stale* recorded index of `b` — a coordinate no longer present in the
output — and drops `b`, producing `[a]`; truncating to the first
occurrence of the value in the output-so-far (treating absent values as
unseen, as the spec's mapping invariant describes) produces `[a, b]`. -/
theorem remove_cycles_stale_index_counterexample :
    remove_cycles_from_path
        [((0 : ℤ), (0 : ℤ)), (1, 1), (0, 0), (1, 1)] = [(0, 0)] ∧
    remove_cycles_spec [((0 : ℤ), (0 : ℤ)), (1, 1), (0, 0), (1, 1)] =
      [(0, 0), (1, 1)] ∧
    remove_cycles_from_path [((0 : ℤ), (0 : ℤ)), (1, 1), (0, 0), (1, 1)] ≠
      remove_cycles_spec [((0 : ℤ), (0 : ℤ)), (1, 1), (0, 0), (1, 1)] := by
  refine ⟨by decide, by decide, by decide⟩

theorem consistentHeur_admissible {α : Type} [LinearOrderedCommRing α]
    (geo : Geo α) (graph : Graph) (lanes : Lanes α) (goalLane : LaneNode α)
    (hg : assocFind lanes goalLane.path_id = some goalLane)
    (hc : ConsistentHeur geo graph lanes goalLane) :
    AdmissibleHeur geo graph lanes goalLane := by
  intro i li ids hfind hseq
  induction ids generalizing i li with
  | nil => simp [IsLaneSeq] at hseq
  | cons a rest ih =>
    obtain ⟨hhead, hlast, hmem, hchain⟩ := hseq
    have ha : a = i := by simpa using hhead
    subst ha
    cases rest with
    | nil =>
      have hai : a = goalLane.path_id := by simpa using hlast
      rw [hai, hg] at hfind
      obtain rfl := Option.some.inj hfind
      simpa [seqLen] using le_of_eq hc.1
    | cons b rest' =>
      have hedge : b ∈ graphGet graph a := hchain.1
      have hbmem : b ∈ a :: b :: rest' := by simp
      obtain ⟨lb, hlb⟩ := Option.isSome_iff_exists.mp (hmem b hbmem)
      have h1 : heuristic geo li goalLane ≤
          lane_length geo lb + heuristic geo lb goalLane :=
        hc.2 (a, li) (assocFind_mem hfind) (b, lb) (assocFind_mem hlb) hedge
      have h2 : heuristic geo lb goalLane ≤
          seqLen geo lanes (b :: rest').tail := by
        refine ih b lb hlb ⟨by simp, ?_, ?_, hchain.2⟩
        · simpa [List.getLast?_cons_cons] using hlast
        · intro j hj; exact hmem j (List.mem_cons_of_mem a hj)
      calc heuristic geo li goalLane
          ≤ lane_length geo lb + heuristic geo lb goalLane := h1
        _ ≤ lane_length geo lb + seqLen geo lanes (b :: rest').tail :=
            add_le_add_left h2 _
        _ = seqLen geo lanes (a :: b :: rest').tail := by
            simp [seqLen, hlb]

/-- C2: The optimality claim fails on the code: on the seven-lane
instance `exLanes` — non-negative lane lengths, consistent and admissible
heuristic — the search returns the lane sequence `[1, 2, 6, 7]` of total
centerline length 17, while the successor-connected sequence
`[1, 3, 5, 6, 7]` from the same start to the same goal has total length
16.  (Cause: lane 5's `f` is rewritten inside the heap, the broken heap
pops lane 6 before lane 5, and the closed check then blocks the cheaper
path through lane 5 from ever reaching lane 6.) -/
theorem a_star_suboptimal_despite_consistent_heuristic :
    (∀ p ∈ exLanes, 0 ≤ lane_length taxiGeo p.2) ∧
    ConsistentHeur taxiGeo exGraph exLanes exGoal ∧
    AdmissibleHeur taxiGeo exGraph exLanes exGoal ∧
    a_star_lane_level taxiGeo exGraph exLanes exStart exGoal 8 =
      some (some [1, 2, 6, 7]) ∧
    IsLaneSeq exGraph exLanes 1 7 [1, 2, 6, 7] ∧
    IsLaneSeq exGraph exLanes 1 7 [1, 3, 5, 6, 7] ∧
    seqLen taxiGeo exLanes [1, 3, 5, 6, 7] <
      seqLen taxiGeo exLanes [1, 2, 6, 7] := by
  refine ⟨by decide, by decide, ?_, by decide, by decide, by decide,
    by decide⟩
  exact consistentHeur_admissible taxiGeo exGraph exLanes exGoal
    (by decide) (by decide)

/-!
## The cycle-remover invariant
-/

section CycleThms

variable {α : Type} [DecidableEq α]

theorem idxOfP_append_left {x : Point α} {l₁ : List (Point α)}
    (l₂ : List (Point α)) (h : x ∈ l₁) :
    idxOfP (l₁ ++ l₂) x = idxOfP l₁ x := by
  induction l₁ with
  | nil => simp at h
  | cons y ys ih =>
    by_cases hy : y = x
    · simp [idxOfP, hy]
    · rcases List.mem_cons.mp h with h' | h'
      · exact absurd h'.symm hy
      · simp [idxOfP, hy, ih h']

theorem idxOfP_append_self {x : Point α} {l : List (Point α)}
    (h : x ∉ l) : idxOfP (l ++ [x]) x = l.length := by
  induction l with
  | nil => simp [idxOfP]
  | cons y ys ih =>
    have hy : y ≠ x := fun hyx => h (hyx ▸ List.mem_cons_self y ys)
    have hys : x ∉ ys := fun hx => h (List.mem_cons_of_mem y hx)
    simp [idxOfP, hy, ih hys]

theorem idxOfP_lt_length {x : Point α} {l : List (Point α)} (h : x ∈ l) :
    idxOfP l x < l.length := by
  induction l with
  | nil => simp at h
  | cons y ys ih =>
    by_cases hy : y = x
    · simp [idxOfP, hy]
    · rcases List.mem_cons.mp h with h' | h'
      · exact absurd h'.symm hy
      · simpa [idxOfP, hy] using ih h'

theorem idxOfP_take {x : Point α} {l : List (Point α)} {k : ℕ}
    (h : x ∈ l.take k) : idxOfP (l.take k) x = idxOfP l x := by
  conv_rhs => rw [← List.take_append_drop k l]
  rw [idxOfP_append_left _ h]

theorem idxOfP_getD {x : Point α} {l : List (Point α)} (h : x ∈ l)
    (d : Point α) : l.getD (idxOfP l x) d = x := by
  induction l with
  | nil => simp at h
  | cons y ys ih =>
    by_cases hy : y = x
    · simp [idxOfP, hy]
    · rcases List.mem_cons.mp h with h' | h'
      · exact absurd h'.symm hy
      · simpa [idxOfP, hy] using ih h'

theorem rcStep_inv {sp : List (Point α × ℕ) × List (Point α)}
    (h : RCInv sp.1 sp.2) (pt : Point α) :
    RCInv (rcStep sp pt).1 (rcStep sp pt).2 := by
  obtain ⟨hnd, hidx⟩ := h
  unfold rcStep
  cases hfind : assocFind sp.1 pt with
  | some idx =>
    refine ⟨hnd.sublist (List.take_sublist _ _), ?_⟩
    intro x hx
    have hxl : x ∈ sp.2 := List.mem_of_mem_take hx
    rw [idxOfP_take hx]
    exact hidx x hxl
  | none =>
    have hpt : pt ∉ sp.2 := fun hmem => by
      have := hidx pt hmem; rw [hfind] at this; exact Option.noConfusion this
    constructor
    · exact hnd.append (List.nodup_singleton pt)
        (List.disjoint_singleton.mpr hpt)
    · intro x hx
      rcases List.mem_append.mp hx with hx' | hx'
      · have hne : pt ≠ x := fun he => hpt (he ▸ hx')
        rw [idxOfP_append_left _ hx',
          show assocFind ((pt, sp.2.length) :: sp.1) x = assocFind sp.1 x
            from by simp [assocFind, hne]]
        exact hidx x hx'
      · have hx'' : x = pt := by simpa using hx'
        subst hx''
        rw [idxOfP_append_self hpt]
        simp [assocFind]

theorem rcFoldl_inv {sp : List (Point α × ℕ) × List (Point α)}
    (h : RCInv sp.1 sp.2) (l : List (Point α)) :
    RCInv (l.foldl rcStep sp).1 (l.foldl rcStep sp).2 := by
  induction l generalizing sp with
  | nil => exact h
  | cons x xs ih => exact ih (rcStep_inv h x)

theorem rcRun_inv (l : List (Point α)) :
    RCInv (rcRun l).1 (rcRun l).2 :=
  rcFoldl_inv ⟨List.nodup_nil, by simp⟩ l

theorem rcFoldl_seen_none {x : Point α}
    {sp : List (Point α × ℕ) × List (Point α)} {l : List (Point α)}
    (hseen : assocFind sp.1 x = none) (hl : x ∉ l) :
    assocFind (l.foldl rcStep sp).1 x = none := by
  induction l generalizing sp with
  | nil => exact hseen
  | cons y ys ih =>
    have hxy : x ≠ y := fun he => hl (he ▸ List.mem_cons_self y ys)
    have hys : x ∉ ys := fun hm => hl (List.mem_cons_of_mem y hm)
    refine ih ?_ hys
    unfold rcStep
    cases hf : assocFind sp.1 y with
    | some idx => exact hseen
    | none => simpa [assocFind, Ne.symm hxy] using hseen

theorem rcFoldl_length_le (l : List (Point α))
    (sp : List (Point α × ℕ) × List (Point α)) :
    (l.foldl rcStep sp).2.length ≤ sp.2.length + l.length := by
  induction l generalizing sp with
  | nil => simp
  | cons x xs ih =>
    refine le_trans (ih (rcStep sp x)) ?_
    have hstep : (rcStep sp x).2.length ≤ sp.2.length + 1 := by
      unfold rcStep
      cases assocFind sp.1 x with
      | some idx =>
        simp only [List.length_take]
        exact le_trans (min_le_right _ _) (Nat.le_succ _)
      | none => simp
    simp only [List.length_cons]
    omega

theorem rcFoldl_fresh_id {l : List (Point α)}
    {sp : List (Point α × ℕ) × List (Point α)} (hnd : l.Nodup)
    (hfresh : ∀ x ∈ l, assocFind sp.1 x = none) :
    (l.foldl rcStep sp).2 = sp.2 ++ l := by
  induction l generalizing sp with
  | nil => simp
  | cons y ys ih =>
    have hy : assocFind sp.1 y = none := hfresh y (List.mem_cons_self y ys)
    have hstep : rcStep sp y = ((y, sp.2.length) :: sp.1, sp.2 ++ [y]) := by
      unfold rcStep; rw [hy]
    rw [List.foldl_cons, hstep,
      ih (List.Nodup.of_cons hnd) ?_]
    · simp
    · intro x hx
      have hxy : y ≠ x := fun he =>
        (List.nodup_cons.mp hnd).1 (he ▸ hx)
      simpa [assocFind, hxy] using hfresh x (List.mem_cons_of_mem y hx)

theorem rcFoldl_ne_nil {sp : List (Point α × ℕ) × List (Point α)}
    (h : sp.2 ≠ []) (l : List (Point α)) :
    (l.foldl rcStep sp).2 ≠ [] := by
  induction l generalizing sp with
  | nil => exact h
  | cons x xs ih =>
    refine ih ?_
    unfold rcStep
    cases assocFind sp.1 x with
    | some idx =>
      obtain ⟨z, zs, hz⟩ := List.exists_cons_of_ne_nil h
      simp [hz, List.take_succ_cons]
    | none => simp

/-- C5: `remove_cycles_from_path` output has no repeated coordinate
value, never exceeds the input length, and equals the input exactly when
the input already has no duplicate values. -/
theorem remove_cycles_nodup_le_identity (l : List (Point α)) :
    (remove_cycles_from_path l).Nodup ∧
    (remove_cycles_from_path l).length ≤ l.length ∧
    (l.Nodup → remove_cycles_from_path l = l) := by
  refine ⟨(rcRun_inv l).1, ?_, ?_⟩
  · simpa using rcFoldl_length_le l ([], [])
  · intro hnd
    have := @rcFoldl_fresh_id _ _ l ([], []) hnd (by simp [assocFind])
    simpa [remove_cycles_from_path, rcRun] using this

/-- Witness for the C5 theorem at a concrete duplicate-free input. -/
theorem remove_cycles_nodup_le_identity_witness :
    (remove_cycles_from_path [((0 : ℤ), (0 : ℤ)), (1, 1)]).Nodup ∧
    (remove_cycles_from_path [((0 : ℤ), (0 : ℤ)), (1, 1)]).length ≤ 2 ∧
    remove_cycles_from_path [((0 : ℤ), (0 : ℤ)), (1, 1)] =
      [(0, 0), (1, 1)] :=
  ⟨(remove_cycles_nodup_le_identity _).1,
   (remove_cycles_nodup_le_identity _).2.1,
   (remove_cycles_nodup_le_identity _).2.2 (by decide)⟩

theorem remove_cycles_append_one (l : List (Point α)) (pt : Point α) :
    remove_cycles_from_path (l ++ [pt]) = (rcStep (rcRun l) pt).2 := by
  unfold remove_cycles_from_path rcRun
  rw [List.foldl_append, List.foldl_cons, List.foldl_nil]

theorem getLast?_take_succ {β : Type _} {l : List β} {i : ℕ}
    (h : i < l.length) (d : β) :
    (l.take (i + 1)).getLast? = some (l.getD i d) := by
  induction l generalizing i with
  | nil => simp at h
  | cons y ys ih =>
    cases i with
    | zero => simp
    | succ j =>
      have hj : j < ys.length := by simpa using h
      have hne : ys.take (j + 1) ≠ [] := by
        rcases ys with _ | ⟨z, zs⟩
        · simp at hj
        · simp [List.take_succ_cons]
      rw [List.take_succ_cons,
        show (y :: ys.take (j + 1)) = [y] ++ ys.take (j + 1) from rfl,
        List.getLast?_append_of_ne_nil _ hne, ih hj, List.getD_cons_succ]

/-- C4 amended: When the encountered coordinate value is still
present in the output-so-far, the code does truncate the output back to —
and including — its first occurrence there; but the recorded index is the
position at first append, so a value discarded by an earlier truncation
(see the counterexample) truncates at a stale index instead of this. -/
theorem remove_cycles_truncates_to_first_occurrence
    (l : List (Point α)) (pt : Point α)
    (h : pt ∈ remove_cycles_from_path l) :
    remove_cycles_from_path (l ++ [pt]) =
      (remove_cycles_from_path l).take
        (idxOfP (remove_cycles_from_path l) pt + 1) ∧
    (remove_cycles_from_path (l ++ [pt])).getLast? = some pt := by
  have hinv := rcRun_inv l
  have hidx : assocFind (rcRun l).1 pt =
      some (idxOfP (remove_cycles_from_path l) pt) := hinv.2 pt h
  have hstep : remove_cycles_from_path (l ++ [pt]) =
      (remove_cycles_from_path l).take
        (idxOfP (remove_cycles_from_path l) pt + 1) := by
    rw [remove_cycles_append_one]
    unfold rcStep
    rw [hidx]
    rfl
  refine ⟨hstep, ?_⟩
  rw [hstep, getLast?_take_succ (idxOfP_lt_length h) pt, idxOfP_getD h pt]

/-- Witness for the amended C4 theorem: re-encountering `(0,0)`, which is
still present in the output, truncates back to its first occurrence. -/
theorem remove_cycles_truncates_witness :
    remove_cycles_from_path
        [((0 : ℤ), (0 : ℤ)), (1, 1), (0, 0)] = [(0, 0)] ∧
    (remove_cycles_from_path [((0 : ℤ), (0 : ℤ)), (1, 1), (0, 0)]).getLast?
      = some (0, 0) := by
  have h := remove_cycles_truncates_to_first_occurrence
    [((0 : ℤ), (0 : ℤ)), (1, 1)] (0, 0) (by decide)
  exact ⟨by rw [(by decide :
      ([((0 : ℤ), (0 : ℤ)), (1, 1)] ++ [(0, 0)]) =
        [((0 : ℤ), (0 : ℤ)), (1, 1), (0, 0)]) ] at h; rw [h.1]; decide,
    by rw [(by decide :
      ([((0 : ℤ), (0 : ℤ)), (1, 1)] ++ [(0, 0)]) =
        [((0 : ℤ), (0 : ℤ)), (1, 1), (0, 0)]) ] at h; exact h.2⟩

end CycleThms

/-!
## The truncation shape
-/

section TruncThms

variable {α : Type} [LinearOrderedField α]

theorem cumulAux_length (geo : Geo α) :
    ∀ (prev : Point α) (acc : α) (l : List (Point α)),
      (cumulAux geo prev acc l).length = l.length
  | _, _, [] => rfl
  | prev, acc, p :: rest => by
      simp [cumulAux, cumulAux_length geo p _ rest]

theorem cumulative_length (geo : Geo α) (l : List (Point α)) :
    (cumulative geo l).length = l.length := by
  cases l with
  | nil => rfl
  | cons p rest => simp [cumulative, cumulAux_length]

theorem candAux_some_lt {geo : Geo α} {goal : Point α} {mf th total : α} :
    ∀ {i : ℕ} {cs : List α} {ps : List (Point α)} {c : ℕ},
      candAux geo goal mf th total i cs ps = some c → c < i + cs.length
  | i, [], ps, c => by simp [candAux]
  | i, c' :: cs', [], c => by simp [candAux]
  | i, c' :: cs', p :: ps', c => by
      rw [candAux]
      split
      · intro h
        obtain rfl := Option.some.inj h
        simp
      · intro h
        have := candAux_some_lt h
        simp only [List.length_cons]
        omega

theorem truncate_goal_lane_ne_nil (geo : Geo α) (center : List (Point α))
    (goal : Point α) (mf th : α) :
    truncate_goal_lane geo center goal mf th ≠ [] := by
  unfold truncate_goal_lane
  dsimp only
  split
  · simp
  · split
    · simp
    · rename_i hlen htot
      intro hcontra
      have := congrArg List.length hcontra
      simp only [List.length_set, List.length_take, List.length_nil] at this
      omega

theorem truncate_goal_lane_shape (geo : Geo α) (center : List (Point α))
    (goal : Point α) (mf th : α) (hne : center ≠ []) :
    ∃ k, 1 ≤ k ∧ k ≤ center.length ∧
      truncate_goal_lane geo center goal mf th =
        (center.take k).set (k - 1) goal := by
  have hlen : ¬ center.length = 0 := by
    simpa [List.length_eq_zero] using hne
  have hpos : 0 < center.length := Nat.pos_of_ne_zero hlen
  unfold truncate_goal_lane
  dsimp only
  rw [if_neg hlen]
  split
  · refine ⟨1, le_refl 1, hpos, ?_⟩
    obtain ⟨c0, rest, rfl⟩ := List.exists_cons_of_ne_nil hne
    simp [List.take_succ_cons]
  · set cand := candAux geo goal mf th
      (((cumulative geo center).getLast?).getD 0) 0
      (cumulative geo center) center with hcand
    have hb : cand.getD (center.length - 1) + 1 ≤ center.length := by
      cases hc : cand with
      | none => simp [Option.getD]; omega
      | some c =>
        have := candAux_some_lt (hcand ▸ hc)
        rw [cumulative_length] at this
        simpa using this
    refine ⟨cand.getD (center.length - 1) + 1, by omega, hb, ?_⟩
    have htl : (center.take (cand.getD (center.length - 1) + 1)).length =
        cand.getD (center.length - 1) + 1 := by
      rw [List.length_take]
      omega
    rw [htl]

/-- C3 amended: Re-applying `truncate_goal_lane` to its own output
with the same goal point and parameters yields a prefix of that output
with its final point replaced by the goal point — so the result never
grows and still terminates exactly at the goal — but (by the
counterexample) it need not equal the single application. -/
theorem truncate_goal_lane_reapply_prefix (geo : Geo α)
    (center : List (Point α)) (goal : Point α) (mf th : α) :
    ∃ k, 1 ≤ k ∧
      k ≤ (truncate_goal_lane geo center goal mf th).length ∧
      truncate_goal_lane geo (truncate_goal_lane geo center goal mf th)
          goal mf th =
        ((truncate_goal_lane geo center goal mf th).take k).set (k - 1)
          goal :=
  truncate_goal_lane_shape geo _ goal mf th
    (truncate_goal_lane_ne_nil geo center goal mf th)

theorem candAux_offset (geo : Geo α) (goal : Point α) (mf th total : α) :
    ∀ (cs : List α) (ps : List (Point α)) (i : ℕ),
      candAux geo goal mf th total i cs ps =
        (candAux geo goal mf th total 0 cs ps).map (· + i)
  | [], ps, i => by simp [candAux]
  | c' :: cs', [], i => by simp [candAux]
  | c' :: cs', p :: ps', i => by
      rw [candAux]
      conv_rhs => rw [candAux]
      split
      · simp
      · rw [candAux_offset geo goal mf th total cs' ps' (i + 1),
          candAux_offset geo goal mf th total cs' ps' 1,
          Option.map_map]
        congr 1
        funext x
        simp only [Function.comp_apply]
        omega

theorem candAux_zero_spec (geo : Geo α) (goal : Point α) (mf th total : α) :
    ∀ (cs : List α) (ps : List (Point α)), cs.length = ps.length →
      (∀ c, candAux geo goal mf th total 0 cs ps = some c →
        c < cs.length ∧
        (mf ≤ cs.getD c 0 / total ∧
          geo (swapPt goal) (swapPt (ps.getD c goal)) < th) ∧
        ∀ j < c, ¬ (mf ≤ cs.getD j 0 / total ∧
          geo (swapPt goal) (swapPt (ps.getD j goal)) < th)) ∧
      (candAux geo goal mf th total 0 cs ps = none →
        ∀ j < cs.length, ¬ (mf ≤ cs.getD j 0 / total ∧
          geo (swapPt goal) (swapPt (ps.getD j goal)) < th))
  | [], ps, h => by simp [candAux]
  | c' :: cs', [], h => by simp at h
  | c' :: cs', p :: ps', h => by
      have hlen : cs'.length = ps'.length := by simpa using h
      have ih := candAux_zero_spec geo goal mf th total cs' ps' hlen
      constructor
      · intro c hc
        rw [candAux] at hc
        split at hc
        · obtain rfl := Option.some.inj hc
          rename_i hhead
          exact ⟨by simp, by simpa using hhead, by omega⟩
        · rename_i hhead
          rw [candAux_offset] at hc
          cases hrec : candAux geo goal mf th total 0 cs' ps' with
          | none => rw [hrec] at hc; simp at hc
          | some c'' =>
            rw [hrec] at hc
            obtain rfl : c = c'' + 1 := by simpa using hc.symm
            obtain ⟨hlt, hcP, hprev⟩ := ih.1 c'' hrec
            refine ⟨by simpa using hlt, by simpa using hcP, ?_⟩
            intro j hj
            cases j with
            | zero => simpa using hhead
            | succ j' =>
                have : j' < c'' := by omega
                simpa using hprev j' this
      · intro hc
        rw [candAux] at hc
        split at hc
        · exact absurd hc (by simp)
        · rename_i hhead
          rw [candAux_offset] at hc
          cases hrec : candAux geo goal mf th total 0 cs' ps' with
          | some c'' => rw [hrec] at hc; simp at hc
          | none =>
            intro j hj
            cases j with
            | zero => simpa using hhead
            | succ j' =>
                have : j' < cs'.length := by simpa using hj
                simpa using ih.2 hrec j' this

/-- C8: Characterisation of `truncate_goal_lane`: it returns exactly
`[goalPoint]` when the centerline is empty or its total arc length is
zero; otherwise it returns the centerline truncated through the first
index satisfying the fraction-and-distance condition (the last index when
no index satisfies it), with the final point replaced by the exact goal
point. -/
theorem truncate_goal_lane_selects_first_index (geo : Geo α)
    (center : List (Point α)) (goal : Point α) (mf th : α) :
    ((center = [] ∨ ((cumulative geo center).getLast?).getD 0 = 0) →
      truncate_goal_lane geo center goal mf th = [goal]) ∧
    (center ≠ [] → ((cumulative geo center).getLast?).getD 0 ≠ 0 →
      ∃ c < center.length,
        truncate_goal_lane geo center goal mf th =
          (center.take (c + 1)).set c goal ∧
        ((TruncPred geo center goal mf th c ∧
            ∀ j < c, ¬ TruncPred geo center goal mf th j) ∨
          ((∀ j < center.length, ¬ TruncPred geo center goal mf th j) ∧
            c = center.length - 1))) := by
  constructor
  · rintro (rfl | htot)
    · rfl
    · by_cases hl : center.length = 0
      · unfold truncate_goal_lane
        rw [if_pos hl]
      · unfold truncate_goal_lane
        dsimp only
        rw [if_neg hl, if_pos htot]
  · intro hne htot
    have hlen : ¬ center.length = 0 := by
      simpa [List.length_eq_zero] using hne
    have hpos : 0 < center.length := Nat.pos_of_ne_zero hlen
    have hcl : (cumulative geo center).length = center.length :=
      cumulative_length geo center
    have hspec := candAux_zero_spec geo goal mf th
      (((cumulative geo center).getLast?).getD 0)
      (cumulative geo center) center hcl
    unfold truncate_goal_lane
    dsimp only
    rw [if_neg hlen, if_neg htot]
    cases hc : candAux geo goal mf th
        (((cumulative geo center).getLast?).getD 0) 0
        (cumulative geo center) center with
    | some c =>
      obtain ⟨hlt, hcP, hprev⟩ := hspec.1 c hc
      rw [hcl] at hlt
      refine ⟨c, hlt, ?_, Or.inl ⟨hcP, fun j hj => hprev j hj⟩⟩
      have htl : (center.take (c + 1)).length = c + 1 := by
        rw [List.length_take]; omega
      simp only [Option.getD_some, htl, Nat.add_sub_cancel]
    | none =>
      have hall := hspec.2 hc
      rw [hcl] at hall
      refine ⟨center.length - 1, by omega, ?_,
        Or.inr ⟨fun j hj => hall j hj, rfl⟩⟩
      have htl : (center.take (center.length - 1 + 1)).length =
          center.length - 1 + 1 := by
        rw [List.length_take]; omega
      simp only [Option.getD_none, htl, Nat.add_sub_cancel]

/-- Witness for the C8 characterisation at a concrete degenerate input:
an empty goal-lane centerline yields exactly the goal point. -/
theorem truncate_goal_lane_selects_first_index_witness :
    truncate_goal_lane (taxiGeo : Geo ℚ) [] (1, 2) (1 / 10) 5 =
      [(1, 2)] :=
  (truncate_goal_lane_selects_first_index (taxiGeo : Geo ℚ) [] (1, 2)
    (1 / 10) 5).1 (Or.inl rfl)

end TruncThms

/-!
## The relaxation-cost invariant of the search
-/

section SearchThms

variable {α : Type} [LinearOrderedCommRing α]

theorem assocFind_assocSet_self {κ β : Type _} [DecidableEq κ]
    (m : List (κ × β)) (k : κ) (v : β) :
    assocFind (assocSet m k v) k = some v := by
  induction m with
  | nil => simp [assocSet, assocFind]
  | cons p rest ih =>
    obtain ⟨k0, v0⟩ := p
    by_cases h : k0 = k
    · simp [assocSet, assocFind, h]
    · simp [assocSet, assocFind, h, ih]

theorem assocFind_assocSet_ne {κ β : Type _} [DecidableEq κ]
    (m : List (κ × β)) {k k' : κ} (v : β) (h : k' ≠ k) :
    assocFind (assocSet m k v) k' = assocFind m k' := by
  have hkk : ¬ k = k' := fun he => h he.symm
  induction m with
  | nil => simp [assocSet, assocFind, hkk]
  | cons p rest ih =>
    obtain ⟨k0, v0⟩ := p
    by_cases h0 : k0 = k
    · subst h0
      simp [assocSet, assocFind, hkk]
    · simp [assocSet, assocFind, h0, ih]

theorem relaxUpdate_GInv {geo : Geo α} {lanes : Lanes α}
    {s : AState α} {nb currentId : ℕ} {lane : LaneNode α} {gc : α}
    (hnb : nb ∉ s.closed) (hcur : currentId ∈ s.closed)
    (hfind : assocFind lanes nb = some lane)
    (hg : gOf s currentId = some gc) (hinv : GInv geo lanes s)
    (ol : List ℕ) (hm fm : List (ℕ × α)) :
    GInv geo lanes
      { openList := ol,
        closed := s.closed,
        gMap := assocSet s.gMap nb (gc + lane_length geo lane),
        hMap := hm, fMap := fm,
        parentMap := assocSet s.parentMap nb currentId } := by
  intro id p hp
  have hnbcur : nb ≠ currentId := fun he => hnb (he ▸ hcur)
  by_cases hid : id = nb
  · subst hid
    have h1 : assocFind (assocSet s.parentMap id currentId) id =
        some currentId := assocFind_assocSet_self _ _ _
    have h2 : assocFind (assocSet s.parentMap id currentId) id = some p := hp
    rw [h1] at h2
    obtain rfl : p = currentId := (Option.some.inj h2).symm
    refine ⟨hcur, lane, hfind, gc, gc + lane_length geo lane, ?_, ?_, rfl⟩
    · show assocFind (assocSet s.gMap id (gc + lane_length geo lane)) p =
        some gc
      rw [assocFind_assocSet_ne _ _ fun he => hnbcur he.symm]
      exact hg
    · exact assocFind_assocSet_self _ _ _
  · have hp' : parentOf s id = some p := by
      have h2 : assocFind (assocSet s.parentMap nb currentId) id =
          some p := hp
      rwa [assocFind_assocSet_ne _ _ hid] at h2
    obtain ⟨hpcl, lane', hfind', gp, gid, hgp, hgid, heq⟩ := hinv id p hp'
    have hpnb : p ≠ nb := fun he => hnb (he ▸ hpcl)
    refine ⟨hpcl, lane', hfind', gp, gid, ?_, ?_, heq⟩
    · show assocFind (assocSet s.gMap nb (gc + lane_length geo lane)) p =
        some gp
      rw [assocFind_assocSet_ne _ _ hpnb]
      exact hgp
    · show assocFind (assocSet s.gMap nb (gc + lane_length geo lane)) id =
        some gid
      rw [assocFind_assocSet_ne _ _ hid]
      exact hgid

theorem relaxList_GInv {geo : Geo α} {lanes : Lanes α}
    {goalLane : LaneNode α} {currentId : ℕ} :
    ∀ (l : List ℕ) (s : AState α), currentId ∈ s.closed →
      GInv geo lanes s →
      GInv geo lanes (relaxList geo lanes goalLane currentId l s)
  | [], s, _, hinv => hinv
  | nb :: rest, s, hcur, hinv => by
      rw [relaxList]
      by_cases hnb : nb ∈ s.closed
      · rw [if_pos hnb]
        exact relaxList_GInv rest s hcur hinv
      · rw [if_neg hnb]
        cases hfind : assocFind lanes nb with
        | none => exact relaxList_GInv rest s hcur hinv
        | some lane =>
          cases hg : gOf s currentId with
          | none => exact relaxList_GInv rest s hcur hinv
          | some gc =>
            dsimp only
            by_cases hlt :
                ltInf (gc + lane_length geo lane) (gOf s nb) = true
            · rw [if_pos hlt]
              exact relaxList_GInv rest _ hcur
                (relaxUpdate_GInv hnb hcur hfind hg hinv _ _ _)
            · rw [if_neg hlt]
              exact relaxList_GInv rest s hcur hinv

theorem aStarIter_GInv {geo : Geo α} {graph : Graph} {lanes : Lanes α}
    {goalLane : LaneNode α} {s s' : AState α}
    (hinv : GInv geo lanes s)
    (h : aStarIter geo graph lanes goalLane s = .next s') :
    GInv geo lanes s' := by
  unfold aStarIter at h
  cases hpop : heappopF (fOf s) s.openList with
  | none => rw [hpop] at h; exact absurd h (by simp)
  | some pr =>
    obtain ⟨current, heap'⟩ := pr
    rw [hpop] at h
    dsimp only at h
    split at h
    · exact absurd h (by simp)
    · have hs' : s' = relaxList geo lanes goalLane current
          (graphGet graph current)
          { s with openList := heap', closed := current :: s.closed } := by
        have := IterResult.next.inj h
        exact this.symm
      subst hs'
      refine relaxList_GInv _ _ (List.mem_cons_self _ _) ?_
      intro id p hp
      have hp' : parentOf s id = some p := hp
      obtain ⟨hpcl, rest⟩ := hinv id p hp'
      exact ⟨List.mem_cons_of_mem _ hpcl, rest⟩

theorem aStarIterN_GInv {geo : Geo α} {graph : Graph} {lanes : Lanes α}
    {goalLane : LaneNode α} :
    ∀ (n : ℕ) (s0 s : AState α), GInv geo lanes s0 →
      aStarIterN geo graph lanes goalLane n s0 = some s →
      GInv geo lanes s
  | 0, s0, s, hinv, h => by
      obtain rfl := Option.some.inj h
      exact hinv
  | n + 1, s0, s, hinv, h => by
      rw [aStarIterN] at h
      cases hit : aStarIter geo graph lanes goalLane s0 with
      | done r => rw [hit] at h; exact absurd h (by simp)
      | next s1 =>
          rw [hit] at h
          exact aStarIterN_GInv n s1 s (aStarIter_GInv hinv hit) h

theorem initState_GInv (geo : Geo α) (lanes : Lanes α)
    (startLane goalLane : LaneNode α) :
    GInv geo lanes (initState geo startLane goalLane) := by
  intro id p hp
  simp [parentOf, initState, assocFind] at hp

/-- C7: In every state the search can reach, a lane's recorded cost
was produced by the `tentative_g = current.g + lane_length(neighbor)`
rule: whenever `parent(id) = p`, the parent `p` is closed, `id` is a
mapped lane, and `g(id) = g(p) + lane_length(lane id)` — the cost charged
for the step into a lane is that lane's own centerline length (per
`lane_length`: the sum of consecutive swapped-geodesic distances, or the
start–end distance for centerlines with fewer than 2 points), not an
edge weight between the two lanes. -/
theorem tentative_cost_is_successor_length {geo : Geo α} {graph : Graph}
    {lanes : Lanes α} {startLane goalLane : LaneNode α} {n : ℕ}
    {s : AState α}
    (hreach : aStarIterN geo graph lanes goalLane n
      (initState geo startLane goalLane) = some s)
    (id p : ℕ) (hp : parentOf s id = some p) :
    p ∈ s.closed ∧ ∃ lane, assocFind lanes id = some lane ∧
      ∃ gp gid, gOf s p = some gp ∧ gOf s id = some gid ∧
        gid = gp + lane_length geo lane :=
  aStarIterN_GInv n _ s (initState_GInv geo lanes startLane goalLane)
    hreach id p hp

/-- Witness for the C7 invariant on the concrete instance: after three
iterations lane 5's parent is lane 3, which is closed, and
`g 5 = g 3 + lane_length(lane 5) = 3 + 1`. -/
theorem tentative_cost_is_successor_length_witness :
    (3 : ℕ) ∈ exS3.closed ∧
    ∃ lane, assocFind exLanes 5 = some lane ∧
      ∃ gp gid, gOf exS3 3 = some gp ∧ gOf exS3 5 = some gid ∧
        gid = gp + lane_length taxiGeo lane :=
  @tentative_cost_is_successor_length ℤ _ taxiGeo exGraph exLanes exStart
    exGoal 3 exS3 (by decide) 5 3 (by decide)

/-!
## Dangling successors are skipped
-/

theorem assocFind_map_snd {κ β γ : Type _} [DecidableEq κ] (f : β → γ) :
    ∀ (g : List (κ × β)) (i : κ),
      assocFind (g.map fun e => (e.1, f e.2)) i = (assocFind g i).map f
  | [], i => rfl
  | (k, v) :: rest, i => by
      by_cases h : k = i
      · simp [assocFind, h]
      · simp [assocFind, h, assocFind_map_snd f rest i]

theorem graphGet_filterDangling (lanes : Lanes α) (g : Graph) (i : ℕ) :
    graphGet (graphFilterDangling lanes g) i =
      (graphGet g i).filter fun j => (assocFind lanes j).isSome := by
  unfold graphGet graphFilterDangling
  rw [assocFind_map_snd]
  cases assocFind g i with
  | none => rfl
  | some l => rfl

theorem relaxList_filter {geo : Geo α} {lanes : Lanes α}
    {goalLane : LaneNode α} {currentId : ℕ} :
    ∀ (l : List ℕ) (s : AState α),
      relaxList geo lanes goalLane currentId
          (l.filter fun j => (assocFind lanes j).isSome) s =
        relaxList geo lanes goalLane currentId l s
  | [], s => rfl
  | nb :: rest, s => by
      by_cases hv : (assocFind lanes nb).isSome
      · rw [List.filter_cons_of_pos (by simpa using hv)]
        rw [relaxList]
        conv_rhs => rw [relaxList]
        split
        · exact relaxList_filter rest s
        · cases hfind : assocFind lanes nb with
          | none => exact relaxList_filter rest s
          | some lane =>
            cases gOf s currentId with
            | none => exact relaxList_filter rest s
            | some gc =>
              dsimp only
              split
              · exact relaxList_filter rest _
              · exact relaxList_filter rest s
      · rw [List.filter_cons_of_neg (by simpa using hv)]
        conv_rhs => rw [relaxList]
        split
        · exact relaxList_filter rest s
        · rw [Option.not_isSome_iff_eq_none.mp hv]
          exact relaxList_filter rest s

theorem aStarIter_filterDangling (geo : Geo α) (graph : Graph)
    (lanes : Lanes α) (goalLane : LaneNode α) (s : AState α) :
    aStarIter geo (graphFilterDangling lanes graph) lanes goalLane s =
      aStarIter geo graph lanes goalLane s := by
  unfold aStarIter
  cases heappopF (fOf s) s.openList with
  | none => rfl
  | some pr =>
    dsimp only
    split
    · rfl
    · rw [graphGet_filterDangling, relaxList_filter]

theorem aStarLoop_filterDangling {geo : Geo α} {graph : Graph}
    {lanes : Lanes α} {goalLane : LaneNode α} :
    ∀ (fuel : ℕ) (s : AState α),
      aStarLoop geo (graphFilterDangling lanes graph) lanes goalLane
          fuel s =
        aStarLoop geo graph lanes goalLane fuel s
  | 0, _ => rfl
  | fuel + 1, s => by
      rw [aStarLoop]
      conv_rhs => rw [aStarLoop]
      rw [aStarIter_filterDangling]
      cases aStarIter geo graph lanes goalLane s with
      | done r => rfl
      | next s' => exact aStarLoop_filterDangling fuel s'

/-- C9: Successor identifiers absent from the lane mapping never
affect the search: running `a_star_lane_level` on the graph with every
dangling successor reference removed yields exactly the same result, for
every fuel bound — each dangling edge is skipped (with a logged warning
in the source) and the search continues over the remaining successors;
a dangling reference is never fatal. -/
theorem dangling_successors_skipped (geo : Geo α) (graph : Graph)
    (lanes : Lanes α) (startLane goalLane : LaneNode α) (fuel : ℕ) :
    a_star_lane_level geo (graphFilterDangling lanes graph) lanes
        startLane goalLane fuel =
      a_star_lane_level geo graph lanes startLane goalLane fuel := by
  unfold a_star_lane_level
  exact aStarLoop_filterDangling fuel (initState geo startLane goalLane)

end SearchThms

/-!
## The published path and its goal endpoint
-/

section PipelineThms

variable {α : Type} [LinearOrderedField α]

theorem getLast?_set_last {β : Type _} :
    ∀ (l : List β) (x : β), l ≠ [] →
      (l.set (l.length - 1) x).getLast? = some x
  | [], x, h => absurd rfl h
  | [_], x, _ => rfl
  | a :: b :: t, x, _ => by
      have ih := getLast?_set_last (b :: t) x (by simp)
      have hne : (b :: t).set ((b :: t).length - 1) x ≠ [] := by
        intro hc
        have := congrArg List.length hc
        simp at this
      have hlen : (a :: b :: t).length - 1 = (b :: t).length - 1 + 1 := by
        simp
      rw [hlen, List.set_cons_succ,
        show a :: (b :: t).set ((b :: t).length - 1) x =
          [a] ++ (b :: t).set ((b :: t).length - 1) x from rfl,
        List.getLast?_append_of_ne_nil _ hne]
      exact ih

theorem truncate_goal_lane_getLast (geo : Geo α) (center : List (Point α))
    (goal : Point α) (mf th : α) :
    (truncate_goal_lane geo center goal mf th).getLast? = some goal := by
  unfold truncate_goal_lane
  dsimp only
  split
  · rfl
  · split
    · rfl
    · rename_i hlen htot
      apply getLast?_set_last
      intro hc
      have := congrArg List.length hc
      simp only [List.length_take, List.length_nil] at this
      omega

theorem remove_cycles_ne_nil {l : List (Point α)} (h : l ≠ []) :
    remove_cycles_from_path l ≠ [] := by
  cases l with
  | nil => exact absurd rfl h
  | cons x rest =>
    show (List.foldl rcStep (rcStep ([], []) x) rest).2 ≠ []
    apply rcFoldl_ne_nil
    show (rcStep ([], []) x).2 ≠ []
    simp [rcStep, assocFind]

theorem remove_cycles_append_fresh {l : List (Point α)} {x : Point α}
    (hx : x ∉ l) :
    remove_cycles_from_path (l ++ [x]) = remove_cycles_from_path l ++ [x] := by
  rw [remove_cycles_append_one]
  have hseen : assocFind (rcRun l).1 x = none :=
    rcFoldl_seen_none (by simp [assocFind]) hx
  unfold rcStep
  rw [hseen]
  rfl

theorem assembled_centerline_getLast {geo : Geo α} {lanes : Lanes α}
    {graph : Graph} {sg gg : Point α} {fuel : ℕ} {l : List (Point α)}
    (h : assembled_centerline geo lanes graph sg gg fuel = some l) :
    l.getLast? = some gg := by
  unfold assembled_centerline at h
  cases h1 : find_closest_lane_node geo lanes sg with
  | none => rw [h1] at h; exact absurd h (by simp)
  | some sL =>
    cases h2 : find_closest_lane_node geo lanes gg with
    | none => rw [h1, h2] at h; exact absurd h (by simp)
    | some gL =>
      rw [h1, h2] at h
      dsimp only at h
      cases h3 : a_star_lane_level geo graph lanes sL gL fuel with
      | none => rw [h3] at h; exact absurd h (by simp)
      | some r =>
        cases r with
        | none => rw [h3] at h; exact absurd h (by simp)
        | some lp =>
          rw [h3] at h
          dsimp only at h
          split at h
          · exact absurd h (by simp)
          · have hl : compositeCenter lanes lp ++
                truncate_goal_lane geo gL.center gg (1 / 10) 5 = l :=
              Option.some.inj h
            rw [← hl,
              List.getLast?_append_of_ne_nil _
                (truncate_goal_lane_ne_nil geo gL.center gg (1 / 10) 5),
              truncate_goal_lane_getLast]

/-- C10 amended: Whenever `try_compute_path` publishes a path, the
path is non-empty; and its final element is exactly the requested goal
point *provided* the goal point's coordinate value does not occur in the
assembled centerline before its final position — without that proviso
the cycle remover can collapse the path past the goal endpoint (see the
counterexample). -/
theorem published_path_nonempty_and_goal_endpoint (geo : Geo α)
    (lanes : Lanes α) (graph : Graph) (sg gg : Point α) (fuel : ℕ)
    (p l : List (Point α))
    (hp : try_compute_path geo lanes graph sg gg fuel = some p)
    (hl : assembled_centerline geo lanes graph sg gg fuel = some l) :
    p ≠ [] ∧ (gg ∉ l.dropLast → p.getLast? = some gg) := by
  have hpl : p = remove_cycles_from_path l := by
    unfold try_compute_path at hp
    rw [hl, Option.map_some'] at hp
    exact (Option.some.inj hp).symm
  have hlast : l.getLast? = some gg := assembled_centerline_getLast hl
  have hlne : l ≠ [] := by
    intro he
    rw [he] at hlast
    exact Option.noConfusion hlast
  have hlg : l.getLast hlne = gg := by
    have h0 := List.getLast?_eq_getLast l hlne
    rw [h0] at hlast
    exact Option.some.inj hlast
  have hsplit : l.dropLast ++ [gg] = l := by
    rw [← hlg]
    exact List.dropLast_append_getLast hlne
  constructor
  · rw [hpl]
    exact remove_cycles_ne_nil hlne
  · intro hnotin
    rw [hpl, ← hsplit, remove_cycles_append_fresh hnotin,
      List.getLast?_append_of_ne_nil _ (by simp),
      List.getLast?_singleton]

set_option maxHeartbeats 1600000 in
theorem wAssembledEval :
    assembled_centerline taxiGeo wLanes wGraph ((0 : ℚ), (0 : ℚ))
        ((3 : ℚ), (0 : ℚ)) 10 =
      some [(0, 0), (1, 0), (2, 0), (3, 0)] := by
  norm_num [assembled_centerline, find_closest_lane_node, fclLanes, fclPts,
    a_star_lane_level, aStarLoop, aStarIter, initState, relaxList,
    chainAux, heappushF, heappopF, siftdownLoop, siftdownGo, siftupLoop,
    siftupGo, assocFind, assocSet, graphGet, gOf, hOf, fOf, ltInf,
    heuristic, lane_length, pairSum, compositeCenter, truncate_goal_lane,
    cumulative, cumulAux, candAux, taxiGeo, swapPt, wLanes, wGraph,
    wLaneA, wLaneG, abs_of_nonneg, abs_of_nonpos, List.getLast?,
    inf_eq_min, Nat.min_def, ← Prod.mk_zero_zero]

set_option maxHeartbeats 1600000 in
theorem wPublishedEval :
    try_compute_path taxiGeo wLanes wGraph ((0 : ℚ), (0 : ℚ))
        ((3 : ℚ), (0 : ℚ)) 10 =
      some [(0, 0), (1, 0), (2, 0), (3, 0)] := by
  rw [try_compute_path, wAssembledEval, Option.map_some']
  norm_num [remove_cycles_from_path, rcRun, rcStep, assocFind,
    ← Prod.mk_zero_zero]

/-- Witness for the amended C10 theorem on a pipeline run whose goal
value occurs only at the end of the assembled centerline: the published
path is non-empty and ends exactly at the requested goal. -/
theorem published_path_goal_endpoint_witness :
    ([((0 : ℚ), (0 : ℚ)), (1, 0), (2, 0), (3, 0)] : List (Point ℚ)) ≠ [] ∧
    ([((0 : ℚ), (0 : ℚ)), (1, 0), (2, 0), (3, 0)] :
        List (Point ℚ)).getLast? = some (3, 0) := by
  have h := published_path_nonempty_and_goal_endpoint taxiGeo wLanes
    wGraph ((0 : ℚ), (0 : ℚ)) ((3 : ℚ), (0 : ℚ)) 10
    [(0, 0), (1, 0), (2, 0), (3, 0)] [(0, 0), (1, 0), (2, 0), (3, 0)]
    wPublishedEval wAssembledEval
  refine ⟨h.1, h.2 ?_⟩
  norm_num [← Prod.mk_zero_zero]

set_option maxHeartbeats 1600000 in
theorem tAssembledEval :
    assembled_centerline taxiGeo tLanes tGraph ((0 : ℚ), (0 : ℚ))
        ((0 : ℚ), (10 : ℚ)) 10 =
      some [(0, 0), (0, 10), (0, 0), (0, 10), (0, 10)] := by
  norm_num [assembled_centerline, find_closest_lane_node, fclLanes, fclPts,
    a_star_lane_level, aStarLoop, aStarIter, initState, relaxList,
    chainAux, heappushF, heappopF, siftdownLoop, siftdownGo, siftupLoop,
    siftupGo, assocFind, assocSet, graphGet, gOf, hOf, fOf, ltInf,
    heuristic, lane_length, pairSum, compositeCenter, truncate_goal_lane,
    cumulative, cumulAux, candAux, taxiGeo, swapPt, tLanes, tGraph,
    tLaneA, tLaneG, abs_of_nonneg, abs_of_nonpos, List.getLast?,
    inf_eq_min, Nat.min_def, ← Prod.mk_zero_zero]

/-- C10 counterexample: A published path whose final element is not
the requested goal point: the goal coordinate `(0, 10)` occurs earlier in
the assembled centerline, so `remove_cycles_from_path` collapses the path
back past the goal endpoint appended by `truncate_goal_lane`, publishing
`[(0, 0)]`. -/
theorem published_path_loses_goal_counterexample :
    try_compute_path taxiGeo tLanes tGraph ((0 : ℚ), (0 : ℚ))
        ((0 : ℚ), (10 : ℚ)) 10 = some [(0, 0)] ∧
    ([((0 : ℚ), (0 : ℚ))] : List (Point ℚ)).getLast? ≠
      some ((0 : ℚ), (10 : ℚ)) := by
  constructor
  · rw [try_compute_path, tAssembledEval, Option.map_some']
    norm_num [remove_cycles_from_path, rcRun, rcStep, assocFind,
      ← Prod.mk_zero_zero]
  · norm_num [← Prod.mk_zero_zero]

end PipelineThms

end AStarPlanner
